import Mathlib

/-!
Verification model of the first-party logic of `src/main.py`:
the Gantt-chart extraction (`extract_gantt_chart`) and the metrics
persistence (`save_metrics`, plus the extra writes done by `main`).

Text is modelled as `List Char`.  The Python regex

  r'### Gantt Chart\n\|.*?\n\|.*?\n((?:\|.*?\n)*)'

searched with `re.search(..., re.DOTALL)` is embedded by an executable
matcher that follows the engine's backtracking behaviour exactly:
`re.search` tries every start position from the left; at a start position
the literal `### Gantt Chart\n|` must match, then the lazy `.*?\n\|`
consumes up to the first `\n|` (retrying on later ones if the rest of the
pattern fails), the lazy `.*?\n` consumes up to the first newline, and the
greedy group `(?:\|.*?\n)*` consumes a maximal run of newline-terminated
rows each beginning with `|`, each row taken up to its first newline.
-/

/-- The literal head of the pattern together with the `\|` that follows:
`"### Gantt Chart\n|"`. -/
def ganttLit : List Char := "### Gantt Chart\n|".data

/-- Scanner for the greedy group `(?:\|.*?\n)*`, inside a row whose
characters so far are held reversed in `cur`.  On a newline the row is
committed; if the next line starts with `|` another row begins, otherwise
the group stops.  An unterminated trailing row is dropped (its `\n` never
matched, so that repetition of the group fails and contributes nothing). -/
def bodyCont (cur : List Char) : List Char → List Char
  | [] => []
  | [c] => if c = '\n' then cur.reverse ++ ['\n'] else []
  | c :: d :: t =>
    if c = '\n' then
      cur.reverse ++ '\n' :: (if d = '|' then bodyCont ['|'] t else [])
    else bodyCont (c :: cur) (d :: t)

/-- The greedy group `(?:\|.*?\n)*`: a maximal run of rows, each a `|`
followed by the characters up to and including the first newline. -/
def bodyRows (s : List Char) : List Char :=
  match s with
  | [] => []
  | c :: t => if c = '|' then bodyCont ['|'] t else []

/-- The lazy `.*?\n` before the capture group: skip to the first newline,
then the greedy group runs on the remainder.  `none` when no newline
exists (the separator row is never terminated). -/
def afterSep : List Char → Option (List Char)
  | [] => none
  | c :: t => if c = '\n' then some (bodyRows t) else afterSep t

/-- The lazy `.*?\n\|` after the header's `|`: scan for the first `\n|`;
if the rest of the pattern fails there, the lazy quantifier extends past
that newline and the scan resumes. -/
def findHdrEnd : List Char → Option (List Char)
  | c :: d :: t =>
    if c = '\n' then
      if d = '|' then
        match afterSep t with
        | some r => some r
        | none => findHdrEnd (d :: t)
      else findHdrEnd (d :: t)
    else findHdrEnd (d :: t)
  | _ => none

/-- One attempt of the whole pattern at the current position: the literal
`### Gantt Chart\n|` must be a prefix, then the rest of the pattern runs
on what follows.  Returns the capture group (group 1). -/
def matchAt (s : List Char) : Option (List Char) :=
  if ganttLit.isPrefixOf s then findHdrEnd (s.drop ganttLit.length) else none

/-- Model of `re.search`: try the pattern at each position from the left, returning
the first successful match's capture group. -/
def searchGantt : List Char → Option (List Char)
  | [] => none
  | c :: t =>
    match matchAt (c :: t) with
    | some r => some r
    | none => searchGantt t

/-- Model of `extract_gantt_chart(text)` from `src/main.py`: on a match, return
`"### Gantt Chart\n|" + match.group(1)`; otherwise the empty string. -/
def extract_gantt_chart (text : List Char) : List Char :=
  match searchGantt text with
  | some g => ganttLit ++ g
  | none => []

/-- The concatenated text of a list of table rows, each row `r` rendered
as `|r\n`.  Used to describe well-formed Gantt sections and the capture
group's output. -/
def rowsText (rows : List (List Char)) : List Char :=
  rows.foldr (fun r acc => '|' :: (r ++ '\n' :: acc)) []

/-- The text of a Gantt section: the marker line `### Gantt Chart`, a
header row `|h`, a separator row `|s`, the body rows, and then whatever
follows (`post`). -/
def sectionText (h s : List Char) (rows : List (List Char)) (post : List Char) : List Char :=
  ganttLit ++ h ++ '\n' :: '|' :: (s ++ '\n' :: (rowsText rows ++ post))

/-- The lines of a text, split at every newline (so a trailing newline
yields a final empty line), as Python's `str.split('\n')` would produce. -/
def linesOf : List Char → List (List Char)
  | [] => [[]]
  | c :: t =>
    if c = '\n' then [] :: linesOf t
    else
      match linesOf t with
      | l :: ls => (c :: l) :: ls
      | [] => [[c]]

/-- The character of a decimal digit (argument taken mod-10-like: values
past 9 render as `9`; the function is only applied to `n % 10`). -/
def digitChar (d : Nat) : Char :=
  if d = 0 then '0' else if d = 1 then '1' else if d = 2 then '2' else if d = 3 then '3'
  else if d = 4 then '4' else if d = 5 then '5' else if d = 6 then '6' else if d = 7 then '7'
  else if d = 8 then '8' else '9'

/-- Least-significant-first decimal digits of `n`, with explicit fuel so
the definition is structurally recursive. -/
def digitsRev : Nat → Nat → List Nat
  | 0, _ => []
  | fuel + 1, n => if n = 0 then [] else n % 10 :: digitsRev fuel (n / 10)

/-- Decimal rendering of a natural number. -/
def natChars (n : Nat) : List Char :=
  if n = 0 then ['0'] else (digitsRev n n).reverse.map digitChar

/-- Decimal rendering of `m < 10000` padded with leading zeros to four
digits (the fractional part of a `%.4f` rendering). -/
def pad4 (m : Nat) : List Char :=
  List.replicate (4 - (natChars m).length) '0' ++ natChars m

/-- The numerator of `q` rounded to a whole number of ten-thousandths.
Model of the rounding performed by Python's `f"{costs:.4f}"` for a
non-negative cost (the float's rounding is approximated over `ℚ`,
half-up): for `q ≥ 0` this is `⌊q * 10000 + 1/2⌋` computed with natural
division. -/
def round4 (q : ℚ) : Nat :=
  (q.num.toNat * 20000 + q.den) / (2 * q.den)

/-- Model of Python's `f"{costs:.4f}"` for a non-negative cost: integer
part, a dot, and four fractional digits. -/
def format4 (q : ℚ) : List Char :=
  natChars (round4 q / 10000) ++ '.' :: pad4 (round4 q % 10000)

/-- The metrics directory as seen by `save_metrics` and `main`: whether it
exists, and the contents of the three append-mode files.  A file that does
not exist yet is the empty content (`open(..., 'a+')` creates it).  The
`task_details.txt`/`milestone_details.txt` files overwritten by `main` are
outside the claims' scope and not modelled. -/
structure FS where
  dirExists : Bool
  cost : List Char
  gantt : List Char
  full : List Char

/-- A metrics directory that does not exist yet: no directory, no files. -/
def freshFS : FS := ⟨false, [], [], []⟩

/-- The line appended to `cost.txt` by `save_metrics`:
`f"{now} Total costs: ${costs:.4f}\n"`. -/
def costLine (ts : List Char) (c : ℚ) : List Char :=
  ts ++ " Total costs: $".data ++ format4 c ++ ['\n']

/-- The banner written to `gantt_chart.md` before the extracted chart:
`f"\n\n# Gantt Chart - {now}\n"`. -/
def ganttBanner (ts : List Char) : List Char :=
  "\n\n# Gantt Chart - ".data ++ ts ++ ['\n']

/-- The banner written to `full_output.txt` before the raw text:
`f"\n\n=== New Run - {now} ===\n"`. -/
def fullBanner (ts : List Char) : List Char :=
  "\n\n=== New Run - ".data ++ ts ++ " ===\n".data

/-- Model of `save_metrics(metrics_dir, crew_output, costs)` from `src/main.py`:
create the directory (`exist_ok=True`), append the cost line to
`cost.txt`, append the banner plus extracted chart to `gantt_chart.md`
when the extraction is non-empty, and append the banner plus raw text to
`full_output.txt`.  Each write's `datetime.now()` is passed explicitly
(`tsC`, `tsG`, `tsF`). -/
def save_metrics (fs : FS) (tsC tsG tsF : List Char) (crew_output : List Char) (costs : ℚ) : FS :=
  let fs1 : FS := { fs with dirExists := true }
  let fs2 : FS := { fs1 with cost := fs1.cost ++ costLine tsC costs }
  let g := extract_gantt_chart crew_output
  let fs3 : FS := if g = [] then fs2 else { fs2 with gantt := fs2.gantt ++ ganttBanner tsG ++ g }
  { fs3 with full := fs3.full ++ fullBanner tsF ++ crew_output }

/-- The cost record `main` appends a second time, without a trailing
newline: `f"{now} Total costs: ${costs:.4f}"`. -/
def costRecord (ts : List Char) (c : ℚ) : List Char :=
  ts ++ " Total costs: $".data ++ format4 c

/-- The writes of one complete run of `main` to the modelled files: the
`save_metrics` call, then `os.makedirs` again, then two further appends to
`cost.txt` — a second cost record (no trailing newline) and the usage
metrics block `f"\nUsage Metrics: \n{df_usage_metrics}"` (`dfUsage` is the
rendered DataFrame).  The external crew invocation only supplies
`resultText` and `costs`. -/
def main_run (fs : FS) (tsC tsG tsF ts2 : List Char) (resultText dfUsage : List Char)
    (costs : ℚ) : FS :=
  let fs1 := save_metrics fs tsC tsG tsF resultText costs
  let fs2 : FS := { fs1 with dirExists := true }
  let fs3 : FS := { fs2 with cost := fs2.cost ++ costRecord ts2 costs }
  { fs3 with cost := fs3.cost ++ "\nUsage Metrics: \n".data ++ dfUsage }

example : extract_gantt_chart "### Gantt Chart\n|Task|Start|End|\n|---|---|---|\n|A|1|2|\n".data
    = "### Gantt Chart\n||A|1|2|\n".data := by decide
example : extract_gantt_chart "x### Gantt Chart\n|a\n|b\n".data
    = "### Gantt Chart\n|".data := by decide
example : extract_gantt_chart "### Gantt Chart\n|X\n### Gantt Chart\n|h\n|s\n|r\n".data
    = "### Gantt Chart\n||s\n|r\n".data := by decide
example : extract_gantt_chart "### Gantt Chart\n|h\n|s\nEND\n".data
    = "### Gantt Chart\n|".data := by decide
example : extract_gantt_chart "### Gantt Chart\n|h\n|s".data = [] := by decide
example : extract_gantt_chart "### Gantt Chart\n|h\n|s\n|a\nX|b\n".data
    = "### Gantt Chart\n||a\n".data := by decide
example : extract_gantt_chart "### Gantt Chart\n|\n|a\n".data
    = "### Gantt Chart\n|".data := by decide
example : extract_gantt_chart "### Gantt Chart\n|a\nZZZ\n|b\nc\n".data
    = "### Gantt Chart\n|".data := by decide
example : extract_gantt_chart "pre\n### Gantt Chart\n|h\n|s\n|b1\n### Gantt Chart\n|h2\n|s2\n|b2\n".data
    = "### Gantt Chart\n||b1\n".data := by decide
example : extract_gantt_chart "### Gantt Chart\n|h\n|s\n|unterminated".data
    = "### Gantt Chart\n|".data := by decide
example : extract_gantt_chart "no chart".data = [] := by decide
example : extract_gantt_chart
    "### Gantt Chart\n|X\n### Gantt Chart\n|h1\n|s1\n|r1\nmid\n### Gantt Chart\n|h2\n|s2\n|r2\n".data
    = "### Gantt Chart\n||s1\n|r1\n".data := by decide

/-! Lemmas about the greedy group `(?:\|.*?\n)*`. -/

theorem bodyCont_skip (cur : List Char) (c : Char) (t : List Char) (hc : c ≠ '\n') :
    bodyCont cur (c :: t) = bodyCont (c :: cur) t := by
  cases t with
  | nil => simp [bodyCont, hc]
  | cons d u => simp [bodyCont, hc]

theorem bodyCont_newline (cur t : List Char) :
    bodyCont cur ('\n' :: t) = cur.reverse ++ '\n' :: bodyRows t := by
  cases t with
  | nil => simp [bodyCont, bodyRows]
  | cons d u => simp [bodyCont, bodyRows]

theorem bodyCont_row (r : List Char) (hr : '\n' ∉ r) (cur w : List Char) :
    bodyCont cur (r ++ '\n' :: w) = cur.reverse ++ (r ++ '\n' :: bodyRows w) := by
  induction r generalizing cur with
  | nil => simpa using bodyCont_newline cur w
  | cons c r ih =>
    have hc : c ≠ '\n' := by rintro rfl; exact hr (List.mem_cons_self _ _)
    rw [List.cons_append, bodyCont_skip _ c _ hc,
      ih (fun h => hr (List.mem_cons_of_mem c h)) (c :: cur)]
    simp

theorem bodyRows_cons_row (r : List Char) (hr : '\n' ∉ r) (w : List Char) :
    bodyRows ('|' :: (r ++ '\n' :: w)) = '|' :: (r ++ '\n' :: bodyRows w) := by
  rw [show bodyRows ('|' :: (r ++ '\n' :: w)) = bodyCont ['|'] (r ++ '\n' :: w) from rfl,
    bodyCont_row r hr]
  rfl

theorem bodyCont_of_no_newline (s : List Char) (hs : '\n' ∉ s) (cur : List Char) :
    bodyCont cur s = [] := by
  induction s generalizing cur with
  | nil => rfl
  | cons c t ih =>
    have hc : c ≠ '\n' := by rintro rfl; exact hs (List.mem_cons_self _ _)
    rw [bodyCont_skip _ _ _ hc]
    exact ih (fun h => hs (List.mem_cons_of_mem _ h)) _

theorem bodyRows_stop (post : List Char) (hpost : post.head? ≠ some '|' ∨ '\n' ∉ post) :
    bodyRows post = [] := by
  cases post with
  | nil => rfl
  | cons c t =>
    by_cases hc : c = '|'
    · subst hc
      rcases hpost with h | h
      · simp at h
      · simp only [bodyRows, if_pos rfl]
        exact bodyCont_of_no_newline t (fun hh => h (List.mem_cons_of_mem _ hh)) _
    · simp [bodyRows, hc]

theorem bodyRows_section (rows : List (List Char)) (hrows : ∀ r ∈ rows, '\n' ∉ r)
    (post : List Char) (hpost : post.head? ≠ some '|' ∨ '\n' ∉ post) :
    bodyRows (rowsText rows ++ post) = rowsText rows := by
  induction rows with
  | nil => simpa [rowsText] using bodyRows_stop post hpost
  | cons r rows ih =>
    have h1 : '\n' ∉ r := hrows r (List.mem_cons_self _ _)
    have e : rowsText (r :: rows) ++ post = '|' :: (r ++ '\n' :: (rowsText rows ++ post)) := by
      simp [rowsText]
    rw [e, bodyRows_cons_row r h1, ih (fun x hx => hrows x (List.mem_cons_of_mem _ hx))]
    simp [rowsText]

/-! Lemmas about the lazy parts of the pattern and the search loop. -/

theorem afterSep_skip (c : Char) (t : List Char) (hc : c ≠ '\n') :
    afterSep (c :: t) = afterSep t := by
  simp [afterSep, hc]

theorem afterSep_newline (t : List Char) : afterSep ('\n' :: t) = some (bodyRows t) := by
  simp [afterSep]

theorem afterSep_section (s : List Char) (hs : '\n' ∉ s) (w : List Char) :
    afterSep (s ++ '\n' :: w) = some (bodyRows w) := by
  induction s with
  | nil => simp [afterSep]
  | cons c t ih =>
    have hc : c ≠ '\n' := by rintro rfl; exact hs (List.mem_cons_self _ _)
    rw [List.cons_append, afterSep_skip _ _ hc]
    exact ih (fun h => hs (List.mem_cons_of_mem _ h))

theorem findHdrEnd_skip (c : Char) (t : List Char) (hc : c ≠ '\n') :
    findHdrEnd (c :: t) = findHdrEnd t := by
  cases t with
  | nil => simp [findHdrEnd]
  | cons d u => simp [findHdrEnd, hc]

theorem findHdrEnd_found (h : List Char) (hh : '\n' ∉ h) (u v : List Char)
    (hu : afterSep u = some v) : findHdrEnd (h ++ '\n' :: '|' :: u) = some v := by
  induction h with
  | nil => simp [findHdrEnd, hu]
  | cons c t ih =>
    have hc : c ≠ '\n' := by rintro rfl; exact hh (List.mem_cons_self _ _)
    rw [List.cons_append, findHdrEnd_skip c _ hc]
    exact ih (fun x => hh (List.mem_cons_of_mem _ x))

theorem matchAt_not_prefix (s : List Char) (hs : ganttLit.isPrefixOf s = false) :
    matchAt s = none := by
  simp [matchAt, hs]

theorem matchAt_append (tail : List Char) : matchAt (ganttLit ++ tail) = findHdrEnd tail := by
  have h1 : ganttLit.isPrefixOf (ganttLit ++ tail) = true := by
    rw [List.isPrefixOf_iff_prefix]
    exact List.prefix_append _ _
  simp [matchAt, h1, List.drop_left]

theorem searchGantt_of_matchAt (s : List Char) (v : List Char) (hm : matchAt s = some v) :
    searchGantt s = some v := by
  cases s with
  | nil => rw [show matchAt [] = none from rfl] at hm; exact absurd hm (by simp)
  | cons c t => simp [searchGantt, hm]

theorem searchGantt_append (pre rest : List Char)
    (hp : ∀ i, i < pre.length → ganttLit.isPrefixOf ((pre ++ rest).drop i) = false) :
    searchGantt (pre ++ rest) = searchGantt rest := by
  induction pre with
  | nil => rfl
  | cons c pre ih =>
    have h0 : ganttLit.isPrefixOf (c :: (pre ++ rest)) = false := by
      simpa using hp 0 (by simp)
    rw [List.cons_append]
    have e : searchGantt (c :: (pre ++ rest)) = searchGantt (pre ++ rest) := by
      simp [searchGantt, matchAt_not_prefix _ h0]
    rw [e]
    exact ih fun i hi => by simpa using hp (i + 1) (by simpa using Nat.succ_lt_succ hi)

theorem searchGantt_eq_none (text : List Char)
    (h : ∀ i, i < text.length → ganttLit.isPrefixOf (text.drop i) = false) :
    searchGantt text = none := by
  induction text with
  | nil => rfl
  | cons c t ih =>
    have h0 : ganttLit.isPrefixOf (c :: t) = false := by simpa using h 0 (by simp)
    simp only [searchGantt, matchAt_not_prefix _ h0]
    exact ih fun i hi => by simpa using h (i + 1) (by simpa using Nat.succ_lt_succ hi)

/-- The central lemma: on a text that is `pre` followed by a Gantt section,
where the literal `### Gantt Chart\n|` never occurs inside `pre` (so the
section's marker is the first occurrence), the extraction returns the fixed
prefix `### Gantt Chart\n|` followed by the section's body rows. -/
theorem extract_section_eq (pre h s : List Char) (rows : List (List Char)) (post : List Char)
    (hp : ∀ i, i < pre.length →
      ganttLit.isPrefixOf ((pre ++ sectionText h s rows post).drop i) = false)
    (hh : '\n' ∉ h) (hs : '\n' ∉ s) (hrows : ∀ r ∈ rows, '\n' ∉ r)
    (hpost : post.head? ≠ some '|' ∨ '\n' ∉ post) :
    extract_gantt_chart (pre ++ sectionText h s rows post) = ganttLit ++ rowsText rows := by
  have hAfter : afterSep (s ++ '\n' :: (rowsText rows ++ post))
      = some (bodyRows (rowsText rows ++ post)) := afterSep_section s hs _
  have hMatch : matchAt (sectionText h s rows post) = some (bodyRows (rowsText rows ++ post)) := by
    have e : sectionText h s rows post
        = ganttLit ++ (h ++ '\n' :: '|' :: (s ++ '\n' :: (rowsText rows ++ post))) := by
      simp [sectionText]
    rw [e, matchAt_append]
    exact findHdrEnd_found h hh _ _ hAfter
  have e1 : searchGantt (pre ++ sectionText h s rows post)
      = searchGantt (sectionText h s rows post) := searchGantt_append _ _ hp
  have e2 : searchGantt (sectionText h s rows post)
      = some (bodyRows (rowsText rows ++ post)) := searchGantt_of_matchAt _ _ hMatch
  simp [extract_gantt_chart, e1, e2, bodyRows_section rows hrows post hpost]

/-! Shape of any successful capture: a concatenation of `|…\n` rows. -/

theorem bodyCont_shape (n : Nat) : ∀ t : List Char, t.length ≤ n → ∀ cur : List Char,
    bodyCont cur t = [] ∨ ∃ a rows, '\n' ∉ a ∧ (∀ r ∈ rows, '\n' ∉ r) ∧
      bodyCont cur t = cur.reverse ++ (a ++ '\n' :: rowsText rows) := by
  induction n with
  | zero =>
    intro t ht cur
    have : t = [] := List.length_eq_zero.mp (Nat.le_zero.mp ht)
    subst this
    exact Or.inl rfl
  | succ n ih =>
    intro t ht cur
    cases t with
    | nil => exact Or.inl rfl
    | cons c t =>
      by_cases hc : c = '\n'
      · subst hc
        rw [bodyCont_newline]
        right
        cases t with
        | nil => exact ⟨[], [], by simp, by simp, by simp [bodyRows, rowsText]⟩
        | cons d u =>
          by_cases hd : d = '|'
          · subst hd
            have hu : u.length ≤ n := by
              simp only [List.length_cons] at ht
              omega
            rcases ih u hu ['|'] with h0 | ⟨a, rows, ha, hrows, heq⟩
            · exact ⟨[], [], by simp, by simp,
                by simp [show bodyRows ('|' :: u) = bodyCont ['|'] u from rfl, h0, rowsText]⟩
            · refine ⟨[], a :: rows, by simp, ?_, ?_⟩
              · intro r hr
                rcases List.mem_cons.mp hr with rfl | hr
                · exact ha
                · exact hrows r hr
              · rw [show bodyRows ('|' :: u) = bodyCont ['|'] u from rfl, heq]
                simp [rowsText]
          · exact ⟨[], [], by simp, by simp, by simp [bodyRows, hd, rowsText]⟩
      · rw [bodyCont_skip _ _ _ hc]
        have ht' : t.length ≤ n := by
          simp only [List.length_cons] at ht
          omega
        rcases ih t ht' (c :: cur) with h0 | ⟨a, rows, ha, hrows, heq⟩
        · exact Or.inl h0
        · right
          refine ⟨c :: a, rows, ?_, hrows, ?_⟩
          · intro hmem
            rcases List.mem_cons.mp hmem with h | h
            · exact hc h.symm
            · exact ha h
          · rw [heq]
            simp

theorem bodyRows_shape (s : List Char) :
    ∃ rows, (∀ r ∈ rows, '\n' ∉ r) ∧ bodyRows s = rowsText rows := by
  cases s with
  | nil => exact ⟨[], by simp, rfl⟩
  | cons c t =>
    by_cases hc : c = '|'
    · subst hc
      rcases bodyCont_shape t.length t le_rfl ['|'] with h0 | ⟨a, rows, ha, hrows, heq⟩
      · exact ⟨[], by simp, by simp [show bodyRows ('|' :: t) = bodyCont ['|'] t from rfl, h0, rowsText]⟩
      · refine ⟨a :: rows, ?_, ?_⟩
        · intro r hr
          rcases List.mem_cons.mp hr with rfl | hr
          · exact ha
          · exact hrows r hr
        · rw [show bodyRows ('|' :: t) = bodyCont ['|'] t from rfl, heq]
          simp [rowsText]
    · exact ⟨[], by simp, by simp [bodyRows, hc, rowsText]⟩

theorem afterSep_shape (t v : List Char) (h : afterSep t = some v) : ∃ w, v = bodyRows w := by
  induction t with
  | nil => exact absurd h (by simp [afterSep])
  | cons c u ih =>
    by_cases hc : c = '\n'
    · subst hc
      rw [afterSep_newline] at h
      exact ⟨u, (Option.some.inj h).symm⟩
    · rw [afterSep_skip _ _ hc] at h
      exact ih h

theorem findHdrEnd_shape (n : Nat) : ∀ t v : List Char, t.length ≤ n →
    findHdrEnd t = some v → ∃ w, v = bodyRows w := by
  induction n with
  | zero =>
    intro t v ht h
    have : t = [] := List.length_eq_zero.mp (Nat.le_zero.mp ht)
    subst this
    exact absurd h (by simp [findHdrEnd])
  | succ n ih =>
    intro t v ht h
    cases t with
    | nil => exact absurd h (by simp [findHdrEnd])
    | cons c t =>
      cases t with
      | nil => exact absurd h (by simp [findHdrEnd])
      | cons d u =>
        have hdu : (d :: u).length ≤ n := by
          simp only [List.length_cons] at ht ⊢
          omega
        by_cases hc : c = '\n'
        · subst hc
          by_cases hd : d = '|'
          · subst hd
            rcases hau : afterSep u with _ | r
            · rw [show findHdrEnd ('\n' :: '|' :: u)
                  = findHdrEnd ('|' :: u) from by simp [findHdrEnd, hau]] at h
              exact ih _ _ hdu h
            · rw [show findHdrEnd ('\n' :: '|' :: u) = some r from by simp [findHdrEnd, hau]] at h
              obtain ⟨w, hw⟩ := afterSep_shape u r hau
              exact ⟨w, (Option.some.inj h).symm.trans hw⟩
          · rw [show findHdrEnd ('\n' :: d :: u) = findHdrEnd (d :: u) from by
                simp [findHdrEnd, hd]] at h
            exact ih _ _ hdu h
        · rw [findHdrEnd_skip _ _ hc] at h
          exact ih _ _ hdu h

theorem searchGantt_shape (text v : List Char) (h : searchGantt text = some v) :
    ∃ w, v = bodyRows w := by
  induction text with
  | nil => exact absurd h (by simp [searchGantt])
  | cons c t ih =>
    rcases hm : matchAt (c :: t) with _ | r
    · rw [show searchGantt (c :: t) = searchGantt t from by simp [searchGantt, hm]] at h
      exact ih h
    · rw [show searchGantt (c :: t) = some r from by simp [searchGantt, hm]] at h
      obtain rfl : r = v := Option.some.inj h
      by_cases hpre : ganttLit.isPrefixOf (c :: t)
      · have hfind : findHdrEnd ((c :: t).drop ganttLit.length) = some r := by
          simpa [matchAt, hpre] using hm
        exact findHdrEnd_shape _ _ _ le_rfl hfind
      · exact absurd hm (by simp [matchAt, hpre])

/-! Lemmas about the `%.4f` cost rendering. -/

theorem digitChar_ne_newline (d : Nat) : digitChar d ≠ '\n' := by
  unfold digitChar
  repeat' split
  all_goals decide

theorem natChars_ne_newline (n : Nat) : '\n' ∉ natChars n := by
  unfold natChars
  split
  · decide
  · intro hmem
    rw [List.mem_map] at hmem
    obtain ⟨d, _, hd⟩ := hmem
    exact digitChar_ne_newline d hd

theorem pad4_ne_newline (m : Nat) : '\n' ∉ pad4 m := by
  unfold pad4
  intro hmem
  rcases List.mem_append.mp hmem with h | h
  · exact absurd (List.eq_of_mem_replicate h) (by decide)
  · exact natChars_ne_newline m h

theorem format4_ne_newline (q : ℚ) : '\n' ∉ format4 q := by
  unfold format4
  intro hmem
  rcases List.mem_append.mp hmem with h | h
  · exact natChars_ne_newline _ h
  · rcases List.mem_cons.mp h with h | h
    · exact absurd h (by decide)
    · exact pad4_ne_newline _ h

theorem costBody_no_newline (ts : List Char) (c : ℚ) (hts : '\n' ∉ ts) :
    '\n' ∉ ts ++ " Total costs: $".data ++ format4 c := by
  intro hmem
  rcases List.mem_append.mp hmem with h | h
  · rcases List.mem_append.mp h with h | h
    · exact hts h
    · revert h; decide
  · exact format4_ne_newline c h

theorem costLine_count (ts : List Char) (c : ℚ) (hts : '\n' ∉ ts) :
    (costLine ts c).count '\n' = 1 := by
  have e : costLine ts c = (ts ++ " Total costs: $".data ++ format4 c) ++ ['\n'] := by
    simp [costLine]
  rw [e, List.count_append, List.count_eq_zero.mpr (costBody_no_newline ts c hts)]
  rfl

theorem format4_015 : format4 ((15 : ℚ) / 100) = "0.1500".data := by
  have h1 : ((15 : ℚ) / 100).num = 3 := by norm_num
  have h2 : ((15 : ℚ) / 100).den = 20 := by norm_num
  simp only [format4, round4, h1, h2]
  decide

/-! The claims. -/

/-- C1 (counterexample): on the spec's example input the code does NOT
return `"### Gantt Chart\n|A|1|2|\n"`: the capture group keeps each row's
leading `|` and the code prepends a further `|`, so a doubled pipe
appears. -/
theorem claim_C1_counterexample :
    extract_gantt_chart "### Gantt Chart\n|Task|Start|End|\n|---|---|---|\n|A|1|2|\n".data
      ≠ "### Gantt Chart\n|A|1|2|\n".data := by
  decide

/-- C1 (amended): on the input `"### Gantt Chart\n|Task|Start|End|\n|---|---|---|\n|A|1|2|\n"`,
`extract_gantt_chart` returns `"### Gantt Chart\n||A|1|2|\n"` — the header
line, a newline, the literal `|` from the returned prefix, and then the
body row `|A|1|2|` with its own leading pipe and trailing newline. -/
theorem claim_C1 :
    extract_gantt_chart "### Gantt Chart\n|Task|Start|End|\n|---|---|---|\n|A|1|2|\n".data
      = "### Gantt Chart\n||A|1|2|\n".data := by
  decide

/-- C2 (counterexample): an input with exactly one well-formed Gantt
section (marker, `|h`, `|s`, body `|r`) can still be mis-extracted when
the literal `### Gantt Chart\n|` occurs earlier: with `re.DOTALL` the lazy
header match spans lines, swallows the real section's marker and header,
and the returned rows are the separator and body (`|s`, `|r`) instead of
the body alone. -/
theorem claim_C2_counterexample :
    extract_gantt_chart
        ("### Gantt Chart\n|X\n".data ++ sectionText "h".data "s".data [['r']] [])
      = "### Gantt Chart\n||s\n|r\n".data ∧
    extract_gantt_chart
        ("### Gantt Chart\n|X\n".data ++ sectionText "h".data "s".data [['r']] [])
      ≠ ganttLit ++ rowsText [['r']] := by
  decide

/-- C2 (amended): for every input `pre ++ section` whose section is
well-formed (header and separator rows without inner newlines, body rows
without inner newlines, and the text after the rows not starting with `|`
or containing no newline) and where the literal `### Gantt Chart\n|` does
not occur inside `pre` (so the section's marker is its first occurrence),
the extraction returns the string starting with `### Gantt Chart\n|`
followed by exactly the consecutive newline-terminated `|`-rows after the
header/separator pair, preserving their text. -/
theorem claim_C2 (pre h s : List Char) (rows : List (List Char)) (post : List Char)
    (hp : ∀ i, i < pre.length →
      ganttLit.isPrefixOf ((pre ++ sectionText h s rows post).drop i) = false)
    (hh : '\n' ∉ h) (hs : '\n' ∉ s) (hrows : ∀ r ∈ rows, '\n' ∉ r)
    (hpost : post.head? ≠ some '|' ∨ '\n' ∉ post) :
    extract_gantt_chart (pre ++ sectionText h s rows post) = ganttLit ++ rowsText rows :=
  extract_section_eq pre h s rows post hp hh hs hrows hpost

/-- C2 witness: a concrete well-formed section embedded after unrelated
text, extracted exactly. -/
theorem claim_C2_witness :
    extract_gantt_chart ("intro\n".data ++ sectionText "Task|Start".data "---|---".data
        [['A', '|', '1'], ['B', '|', '2']] "after\n".data)
      = ganttLit ++ rowsText [['A', '|', '1'], ['B', '|', '2']] :=
  claim_C2 "intro\n".data "Task|Start".data "---|---".data
    [['A', '|', '1'], ['B', '|', '2']] "after\n".data
    (by decide) (by decide) (by decide) (by decide) (by decide)

/-- C3 (counterexample): the match does not require `### Gantt Chart` to
be a whole line: the input `"x### Gantt Chart\n|a\n|b\n"` has no line
literally equal to `### Gantt Chart`, yet the extraction is non-empty
(`re.search` matches mid-line). -/
theorem claim_C3_counterexample :
    extract_gantt_chart "x### Gantt Chart\n|a\n|b\n".data ≠ [] ∧
    "### Gantt Chart".data ∉ linesOf "x### Gantt Chart\n|a\n|b\n".data := by
  decide

/-- C3 (amended): the extraction is non-empty only when the substring
`### Gantt Chart\n|` occurs in the input (not necessarily at a line
start); in particular, for every input in which that substring occurs
nowhere, the extraction returns the empty string. -/
theorem claim_C3 (text : List Char)
    (h : ∀ i, i < text.length → ganttLit.isPrefixOf (text.drop i) = false) :
    extract_gantt_chart text = [] := by
  simp [extract_gantt_chart, searchGantt_eq_none text h]

/-- C3 witness: a text with no Gantt marker extracts to the empty
string. -/
theorem claim_C3_witness : extract_gantt_chart "no gantt chart here\n|a|b|\n".data = [] :=
  claim_C3 "no gantt chart here\n|a|b|\n".data (by decide)

/-- C4 (counterexample): on a section with header and separator but zero
body rows the code returns `"### Gantt Chart\n|"` — not the header line
`### Gantt Chart` alone (a stray `|` from the returned prefix follows the
newline). -/
theorem claim_C4_counterexample :
    extract_gantt_chart "### Gantt Chart\n|H|\n|---|\nEND\n".data = "### Gantt Chart\n|".data ∧
    extract_gantt_chart "### Gantt Chart\n|H|\n|---|\nEND\n".data ≠ "### Gantt Chart".data ∧
    extract_gantt_chart "### Gantt Chart\n|H|\n|---|\nEND\n".data ≠ "### Gantt Chart\n".data := by
  decide

/-- C4 (amended): for every input whose (first-occurrence) Gantt section
has header and separator rows but zero body rows, the extraction returns
exactly `"### Gantt Chart\n|"`: the header line, a newline and the fixed
`|` of the returned prefix, with no table rows after it. -/
theorem claim_C4 (pre h s post : List Char)
    (hp : ∀ i, i < pre.length →
      ganttLit.isPrefixOf ((pre ++ sectionText h s [] post).drop i) = false)
    (hh : '\n' ∉ h) (hs : '\n' ∉ s)
    (hpost : post.head? ≠ some '|' ∨ '\n' ∉ post) :
    extract_gantt_chart (pre ++ sectionText h s [] post) = ganttLit := by
  have e := extract_section_eq pre h s [] post hp hh hs (by simp) hpost
  simpa [rowsText] using e

/-- C4 witness: a concrete zero-body-row section. -/
theorem claim_C4_witness :
    extract_gantt_chart ([] ++ sectionText "H|".data "---|".data [] "END\n".data) = ganttLit :=
  claim_C4 [] "H|".data "---|".data "END\n".data
    (by decide) (by decide) (by decide) (by decide)

/-- C5 (counterexample): an input with two well-formed sections, preceded
by a stray occurrence of the literal `### Gantt Chart\n|`, returns the
first section's separator row `|s1` in addition to its body row `|r1` —
so the result is not only the first section's body rows. -/
theorem claim_C5_counterexample :
    extract_gantt_chart
        "### Gantt Chart\n|X\n### Gantt Chart\n|h1\n|s1\n|r1\nmid\n### Gantt Chart\n|h2\n|s2\n|r2\n".data
      = "### Gantt Chart\n||s1\n|r1\n".data ∧
    extract_gantt_chart
        "### Gantt Chart\n|X\n### Gantt Chart\n|h1\n|s1\n|r1\nmid\n### Gantt Chart\n|h2\n|s2\n|r2\n".data
      ≠ ganttLit ++ rowsText [['r', '1']] := by
  decide

/-- C5 (amended): when the first well-formed section's marker is the first
occurrence of the literal `### Gantt Chart\n|` in the text, an input
holding two sections (the second inside the trailing text, after a
non-`|` separator such as a blank or any other line) extracts to exactly
the first section's body rows; no row of the later section appears. -/
theorem claim_C5 (pre h1 s1 : List Char) (rows1 : List (List Char)) (mid h2 s2 : List Char)
    (rows2 : List (List Char)) (post : List Char)
    (hp : ∀ i, i < pre.length → ganttLit.isPrefixOf
      ((pre ++ sectionText h1 s1 rows1 (mid ++ sectionText h2 s2 rows2 post)).drop i) = false)
    (hh1 : '\n' ∉ h1) (hs1 : '\n' ∉ s1) (hrows1 : ∀ r ∈ rows1, '\n' ∉ r)
    (hmid : (mid ++ sectionText h2 s2 rows2 post).head? ≠ some '|') :
    extract_gantt_chart (pre ++ sectionText h1 s1 rows1 (mid ++ sectionText h2 s2 rows2 post))
      = ganttLit ++ rowsText rows1 :=
  extract_section_eq pre h1 s1 rows1 _ hp hh1 hs1 hrows1 (Or.inl hmid)

/-- C5 witness: two concrete adjacent sections; only the first one's body
row is returned. -/
theorem claim_C5_witness :
    extract_gantt_chart ([] ++ sectionText "h1".data "s1".data [['a']]
        ("".data ++ sectionText "h2".data "s2".data [['b']] []))
      = ganttLit ++ rowsText [['a']] :=
  claim_C5 [] "h1".data "s1".data [['a']] "".data "h2".data "s2".data [['b']] []
    (by decide) (by decide) (by decide) (by decide) (by decide)

/-- C6: `save_metrics` always ends with the metrics directory existing
(`os.makedirs(..., exist_ok=True)`: creating an existing directory is not
an error, so this holds for any starting state); from a fresh directory
one call leaves `cost.txt` holding exactly one newline-terminated line
`<ts> Total costs: $<cost to 4 decimal places>`; and cost `0.15` renders
as `0.1500`. -/
theorem claim_C6 (tsC tsG tsF text : List Char) (c : ℚ) (hts : '\n' ∉ tsC) :
    (∀ fs : FS, (save_metrics fs tsC tsG tsF text c).dirExists = true) ∧
    (save_metrics freshFS tsC tsG tsF text c).cost
      = (tsC ++ " Total costs: $".data ++ format4 c) ++ ['\n'] ∧
    '\n' ∉ tsC ++ " Total costs: $".data ++ format4 c ∧
    format4 ((15 : ℚ) / 100) = "0.1500".data := by
  refine ⟨?_, ?_, costBody_no_newline tsC c hts, format4_015⟩
  · intro fs
    by_cases hg : extract_gantt_chart text = [] <;> simp [save_metrics, hg]
  · by_cases hg : extract_gantt_chart text = [] <;>
      simp [save_metrics, freshFS, costLine, hg]

/-- C6 witness. -/
theorem claim_C6_witness :
    (∀ fs : FS,
      (save_metrics fs "2025-01-01 00:00:00".data "t".data "t".data "out".data 1).dirExists
        = true) ∧
    (save_metrics freshFS "2025-01-01 00:00:00".data "t".data "t".data "out".data 1).cost
      = ("2025-01-01 00:00:00".data ++ " Total costs: $".data ++ format4 1) ++ ['\n'] ∧
    '\n' ∉ "2025-01-01 00:00:00".data ++ " Total costs: $".data ++ format4 1 ∧
    format4 ((15 : ℚ) / 100) = "0.1500".data :=
  claim_C6 "2025-01-01 00:00:00".data "t".data "t".data "out".data 1 (by decide)

/-- C7: every `save_metrics` call appends exactly the cost line to
`cost.txt` (one line: its newline count is 1) and exactly the banner plus
raw text to `full_output.txt`; two calls grow the `cost.txt` newline count
by exactly 2; `gantt_chart.md` is unchanged when the extraction is empty
and receives the banner-plus-chart block when it is not.  All writes are
appends: the prior contents stay as a prefix. -/
theorem claim_C7 (fs : FS) (tsC tsG tsF text : List Char) (c : ℚ) (hts : '\n' ∉ tsC) :
    (save_metrics fs tsC tsG tsF text c).cost = fs.cost ++ costLine tsC c ∧
    (costLine tsC c).count '\n' = 1 ∧
    ((save_metrics (save_metrics fs tsC tsG tsF text c) tsC tsG tsF text c).cost).count '\n'
      = fs.cost.count '\n' + 2 ∧
    (save_metrics fs tsC tsG tsF text c).full = fs.full ++ (fullBanner tsF ++ text) ∧
    (extract_gantt_chart text = [] → (save_metrics fs tsC tsG tsF text c).gantt = fs.gantt) ∧
    (extract_gantt_chart text ≠ [] →
      (save_metrics fs tsC tsG tsF text c).gantt
        = fs.gantt ++ (ganttBanner tsG ++ extract_gantt_chart text)) := by
  have hcost : ∀ g : FS, (save_metrics g tsC tsG tsF text c).cost = g.cost ++ costLine tsC c := by
    intro g
    by_cases hg : extract_gantt_chart text = [] <;> simp [save_metrics, hg]
  refine ⟨hcost fs, costLine_count tsC c hts, ?_, ?_, ?_, ?_⟩
  · rw [hcost, hcost, List.append_assoc, List.count_append]
    rw [List.count_append, costLine_count tsC c hts]
  · by_cases hg : extract_gantt_chart text = [] <;> simp [save_metrics, hg]
  · intro hg
    simp [save_metrics, hg]
  · intro hg
    simp [save_metrics, hg]

/-- C7 witness. -/
theorem claim_C7_witness :
    (save_metrics freshFS "t".data "t".data "t".data "x".data 1).cost
      = freshFS.cost ++ costLine "t".data 1 ∧
    (costLine "t".data 1).count '\n' = 1 ∧
    ((save_metrics (save_metrics freshFS "t".data "t".data "t".data "x".data 1)
        "t".data "t".data "t".data "x".data 1).cost).count '\n'
      = freshFS.cost.count '\n' + 2 ∧
    (save_metrics freshFS "t".data "t".data "t".data "x".data 1).full
      = freshFS.full ++ (fullBanner "t".data ++ "x".data) ∧
    (extract_gantt_chart "x".data = [] →
      (save_metrics freshFS "t".data "t".data "t".data "x".data 1).gantt = freshFS.gantt) ∧
    (extract_gantt_chart "x".data ≠ [] →
      (save_metrics freshFS "t".data "t".data "t".data "x".data 1).gantt
        = freshFS.gantt ++ (ganttBanner "t".data ++ extract_gantt_chart "x".data)) :=
  claim_C7 freshFS "t".data "t".data "t".data "x".data 1 (by decide)

/-- C8 (counterexample): one complete run of `main` does NOT leave exactly
one appended line in `cost.txt`: starting from a fresh directory the file
ends up with three newlines (the `save_metrics` cost line, then a second
un-terminated cost record, then the `\nUsage Metrics: \n…` block), so its
content is not a single newline-terminated line. -/
theorem claim_C8_counterexample :
    ((main_run freshFS "t1".data "t1".data "t1".data "t2".data "".data "df".data 1).cost).count
        '\n' = 3 ∧
    ¬ ∃ u : List Char, '\n' ∉ u ∧
      (main_run freshFS "t1".data "t1".data "t1".data "t2".data "".data "df".data 1).cost
        = u ++ ['\n'] := by
  have h3 : ((main_run freshFS "t1".data "t1".data "t1".data "t2".data "".data
      "df".data 1).cost).count '\n' = 3 := by decide
  refine ⟨h3, ?_⟩
  rintro ⟨u, hu, he⟩
  rw [he, List.count_append, List.count_eq_zero.mpr hu] at h3
  simp at h3

/-- C8 (amended): across one complete run `cost.txt` is append-only (the
prior content stays as a prefix), but it receives three records, not one:
the newline-terminated cost line written by `save_metrics`, a second
`<timestamp> Total costs: $<amount>` record without a trailing newline,
and the usage-metrics block `\nUsage Metrics: \n<dataframe>`. -/
theorem claim_C8 (fs : FS) (tsC tsG tsF ts2 : List Char) (resultText dfUsage : List Char)
    (c : ℚ) :
    (main_run fs tsC tsG tsF ts2 resultText dfUsage c).cost
      = fs.cost ++ (costLine tsC c ++ (costRecord ts2 c
          ++ ("\nUsage Metrics: \n".data ++ dfUsage))) := by
  by_cases hg : extract_gantt_chart resultText = [] <;>
    simp [main_run, save_metrics, hg]

/-- C9: extraction is pure and deterministic — it is a function of the
input text alone.  Calling it twice on the same text gives identical
results, and the block a `save_metrics` call appends to `gantt_chart.md`
(the only consumer of the extraction) does not depend on the prior
filesystem state or on the cost value. -/
theorem claim_C9 (text : List Char) (fs fs' : FS) (tsC tsC' tsG tsF tsF' : List Char)
    (c c' : ℚ) :
    extract_gantt_chart text = extract_gantt_chart text ∧
    ((save_metrics fs tsC tsG tsF text c).gantt).drop fs.gantt.length
      = ((save_metrics fs' tsC' tsG tsF' text c').gantt).drop fs'.gantt.length := by
  refine ⟨rfl, ?_⟩
  by_cases hg : extract_gantt_chart text = [] <;>
    simp [save_metrics, hg, List.drop_left, List.drop_length]

/-- C10: for every input, the extraction is either empty or the literal
`### Gantt Chart` followed by a newline and `|`, with everything after
that prefix a concatenation of zero or more newline-terminated rows, each
beginning with `|` and containing no inner newline. -/
theorem claim_C10 (text : List Char) :
    extract_gantt_chart text = [] ∨
      ∃ rows, (∀ r ∈ rows, '\n' ∉ r) ∧
        extract_gantt_chart text = ganttLit ++ rowsText rows := by
  rcases hsg : searchGantt text with _ | g
  · left
    simp [extract_gantt_chart, hsg]
  · right
    obtain ⟨w, rfl⟩ := searchGantt_shape text g hsg
    obtain ⟨rows, hrows, heq⟩ := bodyRows_shape w
    exact ⟨rows, hrows, by simp [extract_gantt_chart, hsg, heq]⟩
